import Mathlib

/-!
Verification of the translation pipeline of the Multilingual Excel Translator
(src/src/app/translation.service.ts, the `translateDataWithProgress` version of
the service).  The embedding models JavaScript runtime values, `JSON.parse`,
the response-repair text transforms, the six-strategy response parser, the
model-client retry loop (`callGeminiAPI`) and the translation orchestrator
(`translateDataWithProgress`).  Strings are handled as `List Char`, with
`String` wrappers where the source functions take strings.
-/

/-- Json models a JavaScript runtime value as it occurs in the service: the
result of `JSON.parse` plus `undefined` (`undef`), which arises from reading a
missing object property.  Numbers keep their source lexeme, which is all the
pipeline ever inspects. -/
inductive Json where
  | null
  | undef
  | bool (b : Bool)
  | num (lexeme : String)
  | str (s : String)
  | arr (elems : List Json)
  | obj (members : List (String × Json))

/-- Row models a `TranslationData` record: a JavaScript object seen as an
ordered association list from column name to value. -/
abbrev Row := List (String × Json)

/-- Whitespace as used by JSON.parse and by the service's `trim` / `\s`
regex uses: space, tab, line feed, carriage return. -/
def isJsonWs (c : Char) : Bool :=
  c = ' ' || c = '\t' || c = '\n' || c = '\r'

/-- trimChars models JavaScript `String.prototype.trim` on a character list. -/
def trimChars (l : List Char) : List Char :=
  ((l.dropWhile isJsonWs).reverse.dropWhile isJsonWs).reverse

/-- jsTrim models JavaScript `String.prototype.trim`. -/
def jsTrim (s : String) : String :=
  String.mk (trimChars s.data)

/-- splitComma models JavaScript `s.split(',')` on a character list: it never
returns an empty list, and empty segments are kept. -/
def splitComma : List Char → List (List Char)
  | [] => [[]]
  | c :: rest =>
    if c = ',' then [] :: splitComma rest
    else
      match splitComma rest with
      | s :: ss => (c :: s) :: ss
      | [] => [[c]]

/-- splitTrim models `text.split(',').map(h => h.trim())` from the header
translation step. -/
def splitTrim (s : String) : List String :=
  (splitComma s.data).map (fun l => String.mk (trimChars l))

/-- lookupMembers models JavaScript property lookup `o[k]` on an object's
member list, returning `none` for a missing key. -/
def lookupMembers : List (String × Json) → String → Option Json
  | [], _ => none
  | (k', v) :: rest, k => if k' = k then some v else lookupMembers rest k

/-- objInsert models the JavaScript assignment `o[k] = v`: an existing key
keeps its position and is overwritten, a new key is appended. -/
def objInsert : List (String × Json) → String → Json → List (String × Json)
  | [], k, v => [(k, v)]
  | (k', v') :: rest, k, v =>
    if k' = k then (k', v) :: rest else (k', v') :: objInsert rest k v

/-- removeKey drops a key from a member list (helper for duplicate-key
merging in the JSON.parse model). -/
def removeKey : List (String × Json) → String → List (String × Json)
  | [], _ => []
  | (k', v) :: rest, k =>
    if k' = k then removeKey rest k else (k', v) :: removeKey rest k

/-- mergeMember combines a parsed object member with the members parsed after
it, with JavaScript duplicate-key semantics: first occurrence fixes the
position, last occurrence fixes the value. -/
def mergeMember (k : String) (v : Json) (ms : List (String × Json)) :
    List (String × Json) :=
  match lookupMembers ms k with
  | some v2 => (k, v2) :: removeKey ms k
  | none => (k, v) :: ms

/-- skipWs drops leading JSON whitespace. -/
def skipWs (l : List Char) : List Char :=
  l.dropWhile isJsonWs

/-- hexDigitVal reads one hexadecimal digit of a `\u` escape. -/
def hexDigitVal (c : Char) : Option Nat :=
  if '0' ≤ c ∧ c ≤ '9' then some (c.toNat - 48)
  else if 'a' ≤ c ∧ c ≤ 'f' then some (c.toNat - 87)
  else if 'A' ≤ c ∧ c ≤ 'F' then some (c.toNat - 55)
  else none

/-- parseStringBody reads the body of a JSON string literal after the opening
quote, decoding escapes, and returns the decoded string and the remaining
input after the closing quote.  Raw control characters are rejected, as
JSON.parse rejects them. -/
def parseStringBody : List Char → List Char → Option (String × List Char)
  | [], _ => none
  | '"' :: rest, acc => some (String.mk acc.reverse, rest)
  | '\\' :: 'u' :: h1 :: h2 :: h3 :: h4 :: rest, acc =>
    match hexDigitVal h1, hexDigitVal h2, hexDigitVal h3, hexDigitVal h4 with
    | some a, some b, some c, some d =>
      parseStringBody rest (Char.ofNat (((a * 16 + b) * 16 + c) * 16 + d) :: acc)
    | _, _, _, _ => none
  | '\\' :: e :: rest, acc =>
    if e = '"' then parseStringBody rest ('"' :: acc)
    else if e = '\\' then parseStringBody rest ('\\' :: acc)
    else if e = '/' then parseStringBody rest ('/' :: acc)
    else if e = 'b' then parseStringBody rest (Char.ofNat 8 :: acc)
    else if e = 'f' then parseStringBody rest (Char.ofNat 12 :: acc)
    else if e = 'n' then parseStringBody rest ('\n' :: acc)
    else if e = 'r' then parseStringBody rest ('\r' :: acc)
    else if e = 't' then parseStringBody rest ('\t' :: acc)
    else none
  | c :: rest, acc =>
    if c.toNat < 32 then none else parseStringBody rest (c :: acc)

/-- parseNumLexeme reads a JSON number lexeme (sign, integer part, optional
fraction, optional exponent) and returns the lexeme and the rest.  A fraction
or exponent opener not followed by digits is left unconsumed, as in the JSON
grammar. -/
def parseNumLexeme (l : List Char) : Option (List Char × List Char) :=
  let (sign, l1) :=
    match l with
    | '-' :: r => ([('-' : Char)], r)
    | _ => ([], l)
  match l1 with
  | '0' :: r => some (sign ++ '0' :: (fracExp r).1, (fracExp r).2)
  | c :: _ =>
    if c.isDigit then
      let (ds, r) := l1.span Char.isDigit
      some (sign ++ ds ++ (fracExp r).1, (fracExp r).2)
    else none
  | [] => none
where
  -- fracExp reads the optional fraction and exponent parts of the lexeme.
  fracExp (l : List Char) : List Char × List Char :=
    let (fr, l2) :=
      match l with
      | '.' :: r =>
        let (ds, r2) := r.span Char.isDigit
        if ds.isEmpty then ([], l) else ('.' :: ds, r2)
      | _ => ([], l)
    let (ex, l3) :=
      match l2 with
      | e :: r =>
        if e = 'e' ∨ e = 'E' then
          let (sgn, r2) :=
            match r with
            | '+' :: r3 => (['+'], r3)
            | '-' :: r3 => (['-'], r3)
            | _ => ([], r)
          let (ds, r3) := r2.span Char.isDigit
          if ds.isEmpty then ([], l2) else (e :: (sgn ++ ds), r3)
        else ([], l2)
      | [] => ([], l2)
    (fr ++ ex, l3)

/-- parseValue is the core of the JSON.parse model: it parses one JSON value
at the head of the input (no leading whitespace) and returns it with the
unconsumed rest.  Arrays and objects are parsed element by element; after a
comma the remainder of the collection is parsed by re-prefixing the opening
bracket, so every recursive call runs on a strictly shorter input and the
explicit fuel only needs to exceed the input length.  No whitespace after the
closing token is consumed. -/
def parseValue : Nat → List Char → Option (Json × List Char)
  | 0, _ => none
  | _ + 1, [] => none
  | f + 1, c :: l =>
    if c = 'n' then
      match c :: l with
      | 'n' :: 'u' :: 'l' :: 'l' :: r => some (.null, r)
      | _ => none
    else if c = 't' then
      match c :: l with
      | 't' :: 'r' :: 'u' :: 'e' :: r => some (.bool true, r)
      | _ => none
    else if c = 'f' then
      match c :: l with
      | 'f' :: 'a' :: 'l' :: 's' :: 'e' :: r => some (.bool false, r)
      | _ => none
    else if c = '"' then
      match parseStringBody l [] with
      | some (s, r) => some (.str s, r)
      | none => none
    else if c = '-' ∨ c.isDigit then
      match parseNumLexeme (c :: l) with
      | some (lex, r) => some (.num (String.mk lex), r)
      | none => none
    else if c = '[' then
      let r1 := skipWs l
      match r1 with
      | ']' :: r2 => some (.arr [], r2)
      | _ =>
        match parseValue f r1 with
        | none => none
        | some (v, r2) =>
          match skipWs r2 with
          | ']' :: r4 => some (.arr [v], r4)
          | ',' :: r4 =>
            let r5 := skipWs r4
            if r5.headD ' ' = ']' then none
            else
              match parseValue f ('[' :: r5) with
              | some (.arr vs, r6) => some (.arr (v :: vs), r6)
              | _ => none
          | _ => none
    else if c = '{' then
      let r1 := skipWs l
      match r1 with
      | '}' :: r2 => some (.obj [], r2)
      | '"' :: r2 =>
        match parseStringBody r2 [] with
        | none => none
        | some (k, r3) =>
          match skipWs r3 with
          | ':' :: r4 =>
            match parseValue f (skipWs r4) with
            | none => none
            | some (v, r5) =>
              match skipWs r5 with
              | '}' :: r6 => some (.obj [(k, v)], r6)
              | ',' :: r6 =>
                let r7 := skipWs r6
                if r7.headD ' ' = '}' then none
                else
                  match parseValue f ('{' :: r7) with
                  | some (.obj ms, r8) => some (.obj (mergeMember k v ms), r8)
                  | _ => none
              | _ => none
          | _ => none
      | _ => none
    else none

/-- jsonParseChars models `JSON.parse` on a character list: surrounding
whitespace is tolerated, and the whole input must be consumed. -/
def jsonParseChars (l : List Char) : Option Json :=
  let t := trimChars l
  match parseValue (t.length + 1) t with
  | some (v, []) => some v
  | _ => none

/-- jsonParse models `JSON.parse` on a string. -/
def jsonParse (s : String) : Option Json :=
  jsonParseChars s.data

/-- x000dPat is the literal artifact `_x000d_` removed by the cleanup
replacements. -/
def x000dPat : List Char := ['_', 'x', '0', '0', '0', 'd', '_']

/-- removeX000dScan scans for occurrences of `_x000d_` and drops them,
continuing after each match, with one unit of fuel per position. -/
def removeX000dScan : Nat → List Char → List Char
  | 0, l => l
  | _ + 1, [] => []
  | f + 1, c :: rest =>
    if x000dPat.isPrefixOf (c :: rest) then removeX000dScan f ((c :: rest).drop 7)
    else c :: removeX000dScan f rest

/-- removeX000d models the global replacement of the literal artifact
`_x000d_` by the empty string (`.replace(/_x000d_/g, '')`). -/
def removeX000d (l : List Char) : List Char :=
  removeX000dScan l.length l

/-- hasX000d decides whether the artifact `_x000d_` occurs in the input. -/
def hasX000d : List Char → Bool
  | [] => false
  | c :: rest => x000dPat.isPrefixOf (c :: rest) || hasX000d rest

/-- isDevanagariNumChar recognises the character class of the bare-numeral
quoting regex: the Devanagari digits U+0966 to U+096F and the dot. -/
def isDevanagariNumChar (c : Char) : Bool :=
  (0x966 ≤ c.toNat && c.toNat ≤ 0x96F) || c = '.'

/-- tryDevMatch matches the regex of the bare-numeral quoting transform,
`:\s*([०-९\.]+)\s*([,}])`, at the head of the input.  On a match it returns
the replacement text `: "$1"$2` and the input after the match. -/
def tryDevMatch (l : List Char) : Option (List Char × List Char) :=
  match l with
  | ':' :: r1 =>
    let r2 := r1.dropWhile isJsonWs
    let digits := r2.takeWhile isDevanagariNumChar
    let r3 := r2.dropWhile isDevanagariNumChar
    if digits.isEmpty then none
    else
      let r4 := r3.dropWhile isJsonWs
      match r4 with
      | close :: r5 =>
        if close = ',' ∨ close = '}' then
          some (':' :: ' ' :: '"' :: (digits ++ '"' :: [close]), r5)
        else none
      | [] => none
  | _ => none

/-- devQuoteScan is the global-replacement scan for the bare-numeral quoting
regex, driven by fuel (one unit per input position; matches consume at least
three characters, so fuel equal to the input length suffices). -/
def devQuoteScan : Nat → List Char → List Char
  | 0, l => l
  | _ + 1, [] => []
  | f + 1, c :: rest =>
    match tryDevMatch (c :: rest) with
    | some (emit, rest') => emit ++ devQuoteScan f rest'
    | none => c :: devQuoteScan f rest

/-- devQuote models `.replace(/:\s*([०-९\.]+)\s*([,}])/g, ': "$1"$2')`. -/
def devQuote (l : List Char) : List Char :=
  devQuoteScan l.length l

/-- hasDevMatch decides whether the bare-numeral quoting regex matches
anywhere in the input. -/
def hasDevMatch : List Char → Bool
  | [] => false
  | c :: rest => (tryDevMatch (c :: rest)).isSome || hasDevMatch rest

/-- escCharJs models a global replacement of one literal character by a
two-character escape, as in `.replace(/\n/g, '\\n')`. -/
def escCharJs (target rep : Char) : List Char → List Char
  | [] => []
  | c :: rest =>
    if c = target then '\\' :: rep :: escCharJs target rep rest
    else c :: escCharJs target rep rest

/-- stripLeadingBackslashes models `.replace(/^\\+/, '')`. -/
def stripLeadingBackslashes (l : List Char) : List Char :=
  l.dropWhile (· = '\\')

/-- stripTrailingBackslashes models `.replace(/\\+$/, '')`. -/
def stripTrailingBackslashes (l : List Char) : List Char :=
  (l.reverse.dropWhile (· = '\\')).reverse

/-- firstBracketIdx models `s.search(/[\[\{]/)`: the index of the first `[`
or `{`, or `none` when there is no such character. -/
def firstBracketIdx : List Char → Option Nat
  | [] => none
  | c :: rest =>
    if c = '[' ∨ c = '{' then some 0
    else (firstBracketIdx rest).map (· + 1)

/-- cutToFirstBracket models the pattern `const jsonStart = s.search(/[\[\{]/);
if (jsonStart > 0) s = s.substring(jsonStart)`: text before the first bracket
is discarded, but only when the bracket is not already first and exists. -/
def cutToFirstBracket (l : List Char) : List Char :=
  match firstBracketIdx l with
  | some j => if 0 < j then l.drop j else l
  | none => l

/-- backtickChar is the backquote character used by markdown code fences. -/
def backtickChar : Char := Char.ofNat 96

/-- mdFenceOpen is the literal `(backquote)(backquote)(backquote)json` matched
by the fence-stripping regex. -/
def mdFenceOpen : List Char :=
  [backtickChar, backtickChar, backtickChar, 'j', 's', 'o', 'n']

/-- stripFenceStart models `.replace(/^```json\s*/, '')`. -/
def stripFenceStart (l : List Char) : List Char :=
  if mdFenceOpen.isPrefixOf l then (l.drop 7).dropWhile isJsonWs else l

/-- stripFenceEnd models `.replace(/```$/, '')`. -/
def stripFenceEnd (l : List Char) : List Char :=
  if [backtickChar, backtickChar, backtickChar].isSuffixOf l then
    l.take (l.length - 3)
  else l

/-- fixUntermScan is the character scan of `fixUnterminatedStrings`: it
tracks the in-string and escape-pending state.  The source's injection of a
closing quote before a `}` or `]` sits under the guard
`!inString && (char === '}' || char === ']')` and then re-tests `if
(inString)`, so that inner branch (kept here verbatim) can never run; only
the final append of a closing quote when the scan ends inside a string is
reachable. -/
def fixUntermScan : List Char → Bool → Bool → List Char
  | [], inString, _ => if inString then ['"'] else []
  | c :: rest, inString, escapeNext =>
    if escapeNext then c :: fixUntermScan rest inString false
    else if c = '\\' then c :: fixUntermScan rest inString true
    else if c = '"' then c :: fixUntermScan rest (!inString) false
    else if !inString && (c = '}' || c = ']') then
      if inString then '"' :: c :: fixUntermScan rest false false
      else c :: fixUntermScan rest inString false
    else c :: fixUntermScan rest inString false

/-- fixUnterminatedStrings models the service's `fixUnterminatedStrings`. -/
def fixUnterminatedStrings (s : String) : String :=
  String.mk (fixUntermScan s.data false false)

/-- dropLeadingBackslashPairs models the loop
`while (processed.startsWith('\\\\')) processed = processed.substring(2)`. -/
def dropLeadingBackslashPairs : List Char → List Char
  | '\\' :: '\\' :: rest => dropLeadingBackslashPairs rest
  | l => l

/-- preprocessJsonString models the service's `preprocessJsonString`. -/
def preprocessJsonString (l : List Char) : List Char :=
  let p1 := match l with
    | '\\' :: rest => rest
    | _ => l
  let p2 := dropLeadingBackslashPairs p1
  let t := trimChars p2
  let p3 :=
    if !(t.headD ' ' = '[') && !(t.headD ' ' = '{') then cutToFirstBracket p2
    else p2
  trimChars (stripTrailingBackslashes (stripLeadingBackslashes p3))

/-- jsonEscTargets is the character class of the invalid-escape lookahead
`(?!["\\/bfnrtu])`. -/
def jsonEscTargets : List Char := ['"', '\\', '/', 'b', 'f', 'n', 'r', 't', 'u']

/-- fixInvalidEscapes models `.replace(/\\(?!["\\/bfnrtu])/g, '\\\\')`: a
backslash whose next character is not a valid escape opener (or which ends
the input) is doubled; the lookahead character itself is not consumed. -/
def fixInvalidEscapes : List Char → List Char
  | [] => []
  | '\\' :: rest =>
    match rest with
    | c :: _ =>
      if jsonEscTargets.contains c then '\\' :: fixInvalidEscapes rest
      else '\\' :: '\\' :: fixInvalidEscapes rest
    | [] => ['\\', '\\']
  | c :: rest => c :: fixInvalidEscapes rest

/-- doubleBackslashes models `.replace(/\\/g, '\\\\')`. -/
def doubleBackslashes : List Char → List Char
  | [] => []
  | '\\' :: rest => '\\' :: '\\' :: doubleBackslashes rest
  | c :: rest => c :: doubleBackslashes rest

/-- fixDoubleEscapedQuote models `.replace(/\\\\"/g, '\\"')`. -/
def fixDoubleEscapedQuote : List Char → List Char
  | '\\' :: '\\' :: '"' :: rest => '\\' :: '"' :: fixDoubleEscapedQuote rest
  | c :: rest => c :: fixDoubleEscapedQuote rest
  | [] => []

/-- fixDoubleEscapedN models `.replace(/\\\\n/g, '\\n')`. -/
def fixDoubleEscapedN : List Char → List Char
  | '\\' :: '\\' :: 'n' :: rest => '\\' :: 'n' :: fixDoubleEscapedN rest
  | c :: rest => c :: fixDoubleEscapedN rest
  | [] => []

/-- fixDoubleEscapedT models `.replace(/\\\\t/g, '\\t')`. -/
def fixDoubleEscapedT : List Char → List Char
  | '\\' :: '\\' :: 't' :: rest => '\\' :: 't' :: fixDoubleEscapedT rest
  | c :: rest => c :: fixDoubleEscapedT rest
  | [] => []

/-- fixDoubleEscapedR models `.replace(/\\\\r/g, '\\r')`. -/
def fixDoubleEscapedR : List Char → List Char
  | '\\' :: '\\' :: 'r' :: rest => '\\' :: 'r' :: fixDoubleEscapedR rest
  | c :: rest => c :: fixDoubleEscapedR rest
  | [] => []

/-- scanReplace drives a global regex replacement: at each position it applies
the given matcher; on a match it emits the replacement and continues after
the match, otherwise it keeps one character and moves on.  Every matcher used
below consumes at least one character, so fuel equal to the input length
suffices. -/
def scanReplace (m : List Char → Option (List Char × List Char)) :
    Nat → List Char → List Char
  | 0, l => l
  | _ + 1, [] => []
  | f + 1, c :: rest =>
    match m (c :: rest) with
    | some (emit, rest') => emit ++ scanReplace m f rest'
    | none => c :: scanReplace m f rest

/-- tryTrailingComma matches `,(\s*[}\]])` at the head of the input and
returns the replacement `$1`. -/
def tryTrailingComma (l : List Char) : Option (List Char × List Char) :=
  match l with
  | ',' :: r1 =>
    let w := r1.takeWhile isJsonWs
    match r1.dropWhile isJsonWs with
    | c :: r3 =>
      if c = '}' ∨ c = ']' then some (w ++ [c], r3) else none
    | [] => none
  | _ => none

/-- removeTrailingCommas models `.replace(/,(\s*[}\]])/g, '$1')`. -/
def removeTrailingCommas (l : List Char) : List Char :=
  scanReplace tryTrailingComma l.length l

/-- isIdentFirstChar is the class `[a-zA-Z_$]` of the unquoted-key regex. -/
def isIdentFirstChar (c : Char) : Bool :=
  c.isAlpha || c = '_' || c = '$'

/-- isIdentRestChar is the class `[a-zA-Z0-9_$]` of the unquoted-key regex. -/
def isIdentRestChar (c : Char) : Bool :=
  c.isAlpha || c.isDigit || c = '_' || c = '$'

/-- tryQuoteKey matches `([{,]\s*)([a-zA-Z_$][a-zA-Z0-9_$]*)\s*:` at the head
of the input and returns the replacement `$1"$2":`. -/
def tryQuoteKey (l : List Char) : Option (List Char × List Char) :=
  match l with
  | c :: r1 =>
    if c = '{' ∨ c = ',' then
      let w := r1.takeWhile isJsonWs
      match r1.dropWhile isJsonWs with
      | i0 :: r3 =>
        if isIdentFirstChar i0 then
          let ids := r3.takeWhile isIdentRestChar
          let r4 := r3.dropWhile isIdentRestChar
          match r4.dropWhile isJsonWs with
          | ':' :: r6 =>
            some (c :: (w ++ '"' :: i0 :: (ids ++ ['"', ':'])), r6)
          | _ => none
        else none
      | [] => none
    else none
  | [] => none

/-- quoteUnquotedKeys models
`.replace(/([{,]\s*)([a-zA-Z_$][a-zA-Z0-9_$]*)\s*:/g, '$1"$2":')`. -/
def quoteUnquotedKeys (l : List Char) : List Char :=
  scanReplace tryQuoteKey l.length l

/-- isValueFirstExcluded is the complement of the first character class
`[^",{\[\]\s]` of the unquoted-value regex. -/
def isValueFirstExcluded (c : Char) : Bool :=
  c = '"' || c = ',' || c = '{' || c = '[' || c = ']' || isJsonWs c

/-- isValueMidExcluded is the complement of the lazy middle class
`[^",{\[\]}]` of the unquoted-value regex. -/
def isValueMidExcluded (c : Char) : Bool :=
  c = '"' || c = ',' || c = '{' || c = '[' || c = ']' || c = '}'

/-- qvFindTail implements the lazy part `([^",{\[\]}]*?)(\s*[,}\]])` of the
unquoted-value regex: at each position it first tries to match the tail
`\s*[,}\]]`, and otherwise grows the middle group by one character.  It
returns the middle group, the tail whitespace, the closing character and the
rest of the input. -/
def qvFindTail (midRev : List Char) :
    List Char → Option (List Char × List Char × Char × List Char)
  | [] => none
  | c :: rest =>
    let w2 := (c :: rest).takeWhile isJsonWs
    match (c :: rest).dropWhile isJsonWs with
    | e :: r =>
      if e = ',' ∨ e = '}' ∨ e = ']' then some (midRev.reverse, w2, e, r)
      else if isValueMidExcluded c then none
      else qvFindTail (c :: midRev) rest
    | [] =>
      if isValueMidExcluded c then none
      else qvFindTail (c :: midRev) rest

/-- tryQuoteValue matches `:\s*([^",{\[\]\s][^",{\[\]}]*?)(\s*[,}\]])` at the
head of the input and returns the replacement `: "$1"$2`. -/
def tryQuoteValue (l : List Char) : Option (List Char × List Char) :=
  match l with
  | ':' :: r1 =>
    match r1.dropWhile isJsonWs with
    | c1 :: r3 =>
      if isValueFirstExcluded c1 then none
      else
        match qvFindTail [] r3 with
        | some (mid, w2, e, r) =>
          some (':' :: ' ' :: '"' :: c1 :: (mid ++ '"' :: (w2 ++ [e])), r)
        | none => none
    | [] => none
  | _ => none

/-- quoteUnquotedValues models
`.replace(/:\s*([^",{\[\]\s][^",{\[\]}]*?)(\s*[,}\]])/g, ': "$1"$2')`. -/
def quoteUnquotedValues (l : List Char) : List Char :=
  scanReplace tryQuoteValue l.length l

/-- tryTripleQuote matches `"([^"]*)"([^"]*)"([^"]*)":` at the head of the
input and returns the replacement `"$1\\"$2\\"$3":`. -/
def tryTripleQuote (l : List Char) : Option (List Char × List Char) :=
  match l with
  | '"' :: r1 =>
    let g1 := r1.takeWhile (· ≠ '"')
    match r1.dropWhile (· ≠ '"') with
    | '"' :: r3 =>
      let g2 := r3.takeWhile (· ≠ '"')
      match r3.dropWhile (· ≠ '"') with
      | '"' :: r5 =>
        let g3 := r5.takeWhile (· ≠ '"')
        match r5.dropWhile (· ≠ '"') with
        | '"' :: ':' :: r7 =>
          some ('"' :: (g1 ++ '\\' :: '"' :: (g2 ++ '\\' :: '"' ::
            (g3 ++ ['"', ':']))), r7)
        | _ => none
      | _ => none
    | _ => none
  | _ => none

/-- escapeInnerQuotes models
`.replace(/"([^"]*)"([^"]*)"([^"]*)":/g, '"$1\\"$2\\"$3":')`. -/
def escapeInnerQuotes (l : List Char) : List Char :=
  scanReplace tryTripleQuote l.length l

/-- collapseDoubleQuotes models `.replace(/""/g, '"')`. -/
def collapseDoubleQuotes : List Char → List Char
  | '"' :: '"' :: rest => '"' :: collapseDoubleQuotes rest
  | c :: rest => c :: collapseDoubleQuotes rest
  | [] => []

/-- advancedJsonRepair models the service's `advancedJsonRepair` (the
`translateDataWithProgress` version): the replacement chain in source
order. -/
def advancedJsonRepair (l : List Char) : List Char :=
  collapseDoubleQuotes
    (escapeInnerQuotes
      (quoteUnquotedValues
        (quoteUnquotedValues
          (quoteUnquotedKeys
            (removeTrailingCommas
              (fixDoubleEscapedR
                (fixDoubleEscapedT
                  (fixDoubleEscapedN
                    (fixDoubleEscapedQuote
                      (doubleBackslashes
                        (fixInvalidEscapes l)))))))))))

/-- cleanApiResponseChars models the service's `cleanApiResponse`: fence
stripping, trim, leading-backslash handling, unwrap of a quoted response via
JSON.parse, cut to the first bracket, artifact removal, trim. -/
def cleanApiResponseChars (l : List Char) : List Char :=
  let c1 := trimChars (stripFenceEnd (stripFenceStart l))
  let c2 := match c1 with
    | '\\' :: rest => rest
    | _ => c1
  let c3 := stripTrailingBackslashes (stripLeadingBackslashes c2)
  let c4 :=
    if c3.headD ' ' = '"' ∧ c3.getLastD ' ' = '"' then
      match jsonParseChars c3 with
      | some (.str s) => trimChars s.data
      | _ => c3
    else c3
  let c5 := cutToFirstBracket c4
  trimChars (removeX000d (stripLeadingBackslashes c5))

/-- parseWithStrategy1 models the service's `parseWithStrategy1`: artifact
removal, bare-numeral quoting, control-character escaping, trim, then
JSON.parse. -/
def parseWithStrategy1 (l : List Char) : Option Json :=
  jsonParseChars
    (trimChars
      (escCharJs '\t' 't'
        (escCharJs '\r' 'r'
          (escCharJs '\n' 'n'
            (devQuote (removeX000d l))))))

/-- parseWithStrategy2 models the service's `parseWithStrategy2`: remove all
backslashes, artifact removal, bare-numeral quoting, trim, then JSON.parse. -/
def parseWithStrategy2 (l : List Char) : Option Json :=
  jsonParseChars
    (trimChars (devQuote (removeX000d (l.filter (· ≠ '\\')))))

/-- parseWithStrategy3 models the service's `parseWithStrategy3`: cut to the
first bracket, then the strategy-2 cleanup and JSON.parse. -/
def parseWithStrategy3 (l : List Char) : Option Json :=
  let l1 := cutToFirstBracket l
  jsonParseChars
    (trimChars (devQuote (removeX000d (l1.filter (· ≠ '\\')))))

/-- parseWithStrategy4 models the service's `parseWithStrategy4`: preprocess,
unterminated-string balancing, aggressive repair, then JSON.parse. -/
def parseWithStrategy4 (l : List Char) : Option Json :=
  jsonParseChars
    (advancedJsonRepair
      (fixUntermScan (preprocessJsonString l) false false))

/-- lastCloseBracketIdx models `s.lastIndexOf(']')`. -/
def lastCloseBracketIdx (l : List Char) : Option Nat :=
  match firstBracketIdxOfClose l.reverse with
  | some j => some (l.length - 1 - j)
  | none => none
where
  -- firstBracketIdxOfClose finds the first `]` (used on the reversed list).
  firstBracketIdxOfClose : List Char → Option Nat
    | [] => none
    | c :: rest =>
      if c = ']' then some 0 else (firstBracketIdxOfClose rest).map (· + 1)

/-- firstOpenBracketIdx models `s.indexOf('[')`. -/
def firstOpenBracketIdx : List Char → Option Nat
  | [] => none
  | c :: rest =>
    if c = '[' then some 0 else (firstOpenBracketIdx rest).map (· + 1)

/-- parseWithStrategy5 models the service's `parseWithStrategy5`: extract the
substring from the first `[` to the last `]`, clean it (backslash removal,
artifact removal, bare-numeral quoting, trim) and JSON.parse it; without such
a substring the strategy fails. -/
def parseWithStrategy5 (l : List Char) : Option Json :=
  match firstOpenBracketIdx l, lastCloseBracketIdx l with
  | some s, some e =>
    if e > s then
      let content := (l.drop s).take (e - s + 1)
      jsonParseChars
        (trimChars (devQuote (removeX000d (content.filter (· ≠ '\\')))))
    else none
  | _, _ => none

/-- splitNewline models JavaScript `s.split('\n')` on a character list. -/
def splitNewline : List Char → List (List Char)
  | [] => [[]]
  | c :: rest =>
    if c = '\n' then [] :: splitNewline rest
    else
      match splitNewline rest with
      | s :: ss => (c :: s) :: ss
      | [] => [[c]]

/-- kvMatchLine models `line.match(/([^:]+):\s*(.+)/)` of strategy 6: the
leftmost match needs a nonempty run of non-colon characters, a colon and a
nonempty rest; `\s*` is greedy but gives one character back to `.+` when
everything after the colon is whitespace. -/
def kvMatchLine : List Char → Option (List Char × List Char)
  | [] => none
  | c :: rest =>
    if c = ':' then kvMatchLine rest
    else
      let g1 := (c :: rest).takeWhile (· ≠ ':')
      match (c :: rest).dropWhile (· ≠ ':') with
      | ':' :: r2 =>
        if r2.isEmpty then none
        else
          let afterWs := r2.dropWhile isJsonWs
          if afterWs.isEmpty then
            some (g1, [r2.getLastD ' '])
          else some (g1, afterWs.takeWhile (· ≠ '\r'))
      | _ => none

/-- stripKeyChars models `.replace(/[{}"]/g, '')` on a strategy-6 key. -/
def stripKeyChars (l : List Char) : List Char :=
  l.filter (fun c => !(c = '{' || c = '}' || c = '"'))

/-- stripValueChars models `.replace(/[{}",]/g, '')` on a strategy-6 value. -/
def stripValueChars (l : List Char) : List Char :=
  l.filter (fun c => !(c = '{' || c = '}' || c = '"' || c = ','))

/-- strategy6Rows models the extraction loop of `parseWithStrategy6`: for
every nonempty (after trim) line with a `key: value` match whose cleaned key
and value are nonempty, a one-member object is produced. -/
def strategy6Rows (l : List Char) : List Json :=
  ((splitNewline l).filter (fun line => !(trimChars line).isEmpty)).foldr
    (fun line acc =>
      match kvMatchLine line with
      | some (g1, g2) =>
        let key := stripKeyChars (trimChars g1)
        let val := stripValueChars (trimChars g2)
        if !key.isEmpty && !val.isEmpty then
          Json.obj [(String.mk key, Json.str (String.mk val))] :: acc
        else acc
      | none => acc) []

/-- parseWithStrategy6 models the service's `parseWithStrategy6`: the
extracted rows when there are any, otherwise the single-empty-object array;
it never fails. -/
def parseWithStrategy6 (l : List Char) : Option Json :=
  let rows := strategy6Rows l
  if rows.isEmpty then some (.arr [.obj []]) else some (.arr rows)

/-- parseCleanedResponse is the strategy cascade of the service's
`parseApiResponse` (the six-strategy version) on the cleaned response: a
direct JSON.parse, then the six strategies in order; the final error branch
reports parse failure.  An `Except.error` models a thrown `Error`. -/
def parseCleanedResponse (clean : List Char) : Except String Json :=
  match jsonParseChars clean with
  | some v => .ok v
  | none =>
    match parseWithStrategy1 clean with
    | some v => .ok v
    | none =>
      match parseWithStrategy2 clean with
      | some v => .ok v
      | none =>
        match parseWithStrategy3 clean with
        | some v => .ok v
        | none =>
          match parseWithStrategy4 clean with
          | some v => .ok v
          | none =>
            match parseWithStrategy5 clean with
            | some v => .ok v
            | none =>
              match parseWithStrategy6 clean with
              | some v => .ok v
              | none => .error "JSON parsing failed"

/-- parseApiResponse models the service's `parseApiResponse`: the response is
cleaned once and the cleaned text feeds the direct parse and every fallback
strategy. -/
def parseApiResponse (s : String) : Except String Json :=
  parseCleanedResponse (cleanApiResponseChars s.data)

/-- ApiResp models one simulated endpoint interaction for a `fetch` in
`callGeminiAPI`: an HTTP-ok response carrying usable text (`ok (some t)`) or
no usable text (`ok none`, i.e. no candidates/content/parts/text), a non-ok
HTTP status, or a transport-level failure (rejected fetch). -/
inductive ApiResp where
  | ok (text : Option String)
  | status (code : Nat)
  | netError

/-- GemErr classifies the errors `callGeminiAPI` can throw: the
empty-content error, the API-error for a non-ok non-retryable status, a
transport failure, and the final error after the retry budget is spent. -/
inductive GemErr where
  | emptyContent
  | apiError (code : Nat)
  | netFailure
  | retriesExhausted

/-- geminiLoop models the retry loop of `callGeminiAPI` against a list of
simulated endpoint responses (one per request, in order; a missing response
counts as a transport failure).  It returns the number of requests made, the
list of backoff delays awaited (milliseconds), and the outcome.  `fuel` is
the number of attempts left (5 at entry), `delay` the current backoff.  A
thrown error is retried by the catch-all `catch` unless the attempt is the
last one, mirroring the source; a 503/429 status retries without throwing,
so on the last attempt it still waits and then falls out of the loop into
the final `retriesExhausted` error. -/
def geminiLoop : Nat → Nat → List ApiResp → Nat × List Nat × Except GemErr String
  | 0, _, _ => (0, [], .error .retriesExhausted)
  | fuel + 1, delay, rs =>
    let next := geminiLoop fuel (delay * 2) rs.tail
    let step : Nat × List Nat × Except GemErr String :=
      (next.1 + 1, delay :: next.2.1, next.2.2)
    match rs.headD .netError with
    | .ok (some t) => (1, [], .ok t)
    | .ok none =>
      if fuel = 0 then (1, [], .error .emptyContent) else step
    | .status c =>
      if c = 503 ∨ c = 429 then step
      else if fuel = 0 then (1, [], .error (.apiError c)) else step
    | .netError =>
      if fuel = 0 then (1, [], .error .netFailure) else step

/-- callGeminiAPI models the service's `callGeminiAPI`: five attempts,
starting with a one-second backoff that doubles after every retry. -/
def callGeminiAPI (rs : List ApiResp) : Nat × List Nat × Except GemErr String :=
  geminiLoop 5 1000 rs

/-- isVerbalReasoning models the strict comparison
`row['Subskill'] === 'Verbal Reasoning'` on a row. -/
def isVerbalReasoning (r : Row) : Bool :=
  match lookupMembers r "Subskill" with
  | some (.str s) => s = "Verbal Reasoning"
  | _ => false

/-- jsTruthy models JavaScript truthiness of a value (numbers are falsy when
their lexeme denotes zero). -/
def jsTruthy : Json → Bool
  | .undef => false
  | .null => false
  | .bool b => b
  | .str s => !s.isEmpty
  | .num lex =>
    let mantissa := (lex.data.dropWhile (· = '-')).takeWhile
      (fun c => !(c = 'e' || c = 'E'))
    !(mantissa.all (fun c => c = '0' || c = '.'))
  | .arr _ => true
  | .obj _ => true

/-- jsGet models the JavaScript property read `sourceRow[key]` for the value
shapes that can reach the reconstruction step: objects look the key up,
strings and arrays expose `length` and indexed elements, and other primitive
values have no own properties.  (A `null`/`undefined` base would throw in
JavaScript; the reconstruction only reads properties of truthy values.) -/
def jsGet (v : Json) (key : String) : Json :=
  match v with
  | .obj ms => (lookupMembers ms key).getD .undef
  | .arr xs =>
    if key = "length" then .num (toString xs.length)
    else
      match canonicalIndex key.data with
      | some i => xs.getD i .undef
      | none => .undef
  | .str s =>
    if key = "length" then .num (toString s.length)
    else
      match canonicalIndex key.data with
      | some i =>
        if h : i < s.data.length then .str (String.mk [s.data.get ⟨i, h⟩])
        else .undef
      | none => .undef
  | _ => .undef
where
  -- canonicalIndex reads a canonical decimal array index ("0", "1", ...).
  canonicalIndex : List Char → Option Nat
    | [] => none
    | ['0'] => some 0
    | c :: rest =>
      if c.isDigit ∧ c ≠ '0' ∧ rest.all Char.isDigit then
        some ((c :: rest).foldl (fun n d => n * 10 + (d.toNat - 48)) 0)
      else none

/-- spreadPush models `translatedRowValues.push(...parsedChunk)`: spreading
an array appends its elements, spreading a string appends its characters as
one-character strings (strings are iterable), and any other value is not
iterable, so the push throws a TypeError, which aborts the job. -/
def spreadPush (v : Json) : Except String (List Json) :=
  match v with
  | .arr xs => .ok xs
  | .str s => .ok (s.data.map (fun c => Json.str (String.mk [c])))
  | _ => .error "parsedChunk is not iterable"

/-- OrchErr classifies the failures that abort `translateDataWithProgress`:
the header-count mismatch, a failed chunk API call, a chunk response no
strategy could parse, and a spread of a non-iterable parse result. -/
inductive OrchErr where
  | headerMismatch
  | apiFailure
  | parseFailed
  | spreadFailed

/-- chunkStep combines one chunk's parse outcome with the outcome of the
remaining chunks: a parse error or a non-iterable parse result aborts the
loop, otherwise the spread elements are pushed before the later results. -/
def chunkStep (pr : Except String Json)
    (restRes : Except OrchErr (List Json) × Nat) :
    Except OrchErr (List Json) × Nat :=
  match pr with
  | .error _ => (.error .parseFailed, 1)
  | .ok v =>
    match spreadPush v with
    | .error _ => (.error .spreadFailed, 1)
    | .ok xs =>
      match restRes with
      | (.ok acc, n) => (.ok (xs ++ acc), n + 1)
      | (.error e, n) => (.error e, n + 1)

/-- chunkLoop models the chunk loop of `translateDataWithProgress` with
`CHUNK_SIZE = 1`: one API call per to-translate row, each raw response text
drawn in order from `resps` (a missing response models a failed call).  It
returns the accumulated translated row values or the first error, together
with the number of chunk API calls made. -/
def chunkLoop : List Row → List String → Except OrchErr (List Json) × Nat
  | [], _ => (.ok [], 0)
  | _ :: _, [] => (.error .apiFailure, 1)
  | _ :: rows, t :: ts => chunkStep (parseApiResponse t) (chunkLoop rows ts)

/-- buildRowAux models the header loop
`originalHeaders.forEach((originalHeader, index) => { newRow[translatedHeader]
= sourceRow[originalHeader] })`: `i` is the running index into the translated
header list (an out-of-range read gives `undefined`, which JavaScript coerces
to the key "undefined"). -/
def buildRowAux (transH : List String) (src : Json) :
    List String → Nat → Row → Row
  | [], _, acc => acc
  | h :: hs, i, acc =>
    buildRowAux transH src hs (i + 1)
      (objInsert acc (transH.getD i "undefined") (jsGet src h))

/-- buildRow builds one output row from a source row: every original column
is read from the source and written under the translated header of the same
index. -/
def buildRow (origH transH : List String) (src : Json) : Row :=
  buildRowAux transH src origH 0 []

/-- reconAux models the reconstruction `originalData.map(originalRow => ...)`
with its external counter `translatedDataCounter`: a passthrough row reads
from itself, any other row reads the next translated value; a falsy source
(in particular a missing translated value, which is `undefined`) yields an
empty output row and does not advance the counter. -/
def reconAux (origH transH : List String) (translated : List Json) :
    List Row → Nat → List Row
  | [], _ => []
  | r :: rest, counter =>
    let shouldSkip := isVerbalReasoning r
    let src := if shouldSkip then Json.obj r else translated.getD counter .undef
    if jsTruthy src then
      buildRow origH transH src ::
        reconAux origH transH translated rest
          (if shouldSkip then counter else counter + 1)
    else
      ([] : Row) :: reconAux origH transH translated rest counter

/-- translateDataWithProgress models the orchestrator of the service against
a successful header API call returning `headerResp` and chunk API calls
returning the texts of `chunkResps` in order.  It returns the reconstructed
rows or the aborting error, together with the number of chunk API calls
made (0 when the run fails before the chunk loop). -/
def translateDataWithProgress (originalData : List Row)
    (originalHeaders : List String) (headerResp : String)
    (chunkResps : List String) : Except OrchErr (List Row) × Nat :=
  let dataToTranslate := originalData.filter (fun r => !isVerbalReasoning r)
  let translatedHeaders := splitTrim headerResp
  if translatedHeaders.length ≠ originalHeaders.length then
    (.error .headerMismatch, 0)
  else
    match chunkLoop dataToTranslate chunkResps with
    | (.error e, n) => (.error e, n)
    | (.ok translated, n) =>
      (.ok (reconAux originalHeaders translatedHeaders translated
        originalData 0), n)

/-- hasChar decides whether a character occurs in the input. -/
def hasChar (t : Char) : List Char → Bool
  | [] => false
  | c :: rest => c = t || hasChar t rest

/-- isRowArray recognises a JSON array whose elements are all objects (an
array of row objects). -/
def isRowArray : Json → Bool
  | .arr xs => xs.all (fun x => match x with | .obj _ => true | _ => false)
  | _ => false

/-- isNonemptyArray recognises a JSON array with at least one element. -/
def isNonemptyArray : Json → Bool
  | .arr (_ :: _) => true
  | _ => false

/-- rowKeys lists the column names of a row in order. -/
def rowKeys (r : Row) : List String :=
  r.map Prod.fst

/-- translatedOf is the translated-row list a successful chunk loop
accumulates for a data set and its chunk responses (empty on failure). -/
def translatedOf (data : List Row) (chunkResps : List String) : List Json :=
  match (chunkLoop (data.filter (fun r => !isVerbalReasoning r)) chunkResps).1 with
  | .ok ts => ts
  | .error _ => []

/-- countToTranslateBefore counts the to-translate rows among the first `k`
rows: the reconstruction counter's value when row `k` is reached. -/
def countToTranslateBefore (data : List Row) (k : Nat) : Nat :=
  ((data.take k).filter (fun r => !isVerbalReasoning r)).length

/-- Claim C4 (code_bug evidence): on the spec's own scenario input
`{"Q": "hello}` the unterminated-string transform appends the closing quote
at the very end, producing `{"Q": "hello}"`, and does not produce the
specified repair `{"Q": "hello"}`: the inject-before-brace branch of the
source is guarded by `!inString` and can never run. -/
theorem C4_fixUnterminatedStrings_eval :
    fixUnterminatedStrings "\x7b\"Q\": \"hello\x7d" = "\x7b\"Q\": \"hello\x7d\"" ∧
    fixUnterminatedStrings "\x7b\"Q\": \"hello\x7d" ≠ "\x7b\"Q\": \"hello\"\x7d" := by
  constructor
  · rfl
  · decide

/-- Claim C7: when the endpoint returns 503 on the first three requests and a
usable-text success on the fourth, callGeminiAPI makes exactly 4 requests,
waits 1000 ms, 2000 ms and 4000 ms between consecutive requests, and returns
the fourth response's text. -/
theorem C7_retry_backoff_503 (t : String) :
    callGeminiAPI [.status 503, .status 503, .status 503, .ok (some t)] =
      (4, [1000, 2000, 4000], .ok t) := rfl

/-- Claim C6 (counterexample): after an HTTP-ok response with no usable text
content, callGeminiAPI does make a further request — on the trace
[ok-no-content, ok "hi"] it makes 2 requests and even succeeds, so the
response is not treated as a non-retryable terminal error. -/
theorem C6_empty_content_retried_counterexample :
    callGeminiAPI [.ok none, .ok (some "hi")] = (2, [1000], .ok "hi") ∧
    (callGeminiAPI [.ok none, .ok (some "hi")]).1 ≠ 1 := by
  constructor
  · rfl
  · decide

/-- Claim C6 (amended): an HTTP-ok response with no usable text raises the
empty-content error, but the catch-all retry treats it like a transient
failure: with at least two attempts left the client waits the current
backoff, doubles it and issues a further request; only on the final (fifth)
attempt does the empty-content error propagate. -/
theorem C6_empty_content_retry_behavior (f d : Nat) (rs : List ApiResp) :
    geminiLoop (f + 2) d (.ok none :: rs) =
      ((geminiLoop (f + 1) (d * 2) rs).1 + 1,
        d :: (geminiLoop (f + 1) (d * 2) rs).2.1,
        (geminiLoop (f + 1) (d * 2) rs).2.2) ∧
    geminiLoop 1 d (.ok none :: rs) = (1, [], .error .emptyContent) := by
  constructor
  · show geminiLoop (f + 1 + 1) d (.ok none :: rs) = _
    simp [geminiLoop]
  · simp [geminiLoop]

/-- Claim C2: when the header response, split on commas and trimmed, has a
length different from the original header list's, the translate operation
fails with the header-mismatch error and makes no body-chunk API call at
all, whatever the chunk responses would have been. -/
theorem C2_header_mismatch_aborts (originalData : List Row)
    (originalHeaders : List String) (headerResp : String)
    (chunkResps : List String)
    (h : (splitTrim headerResp).length ≠ originalHeaders.length) :
    translateDataWithProgress originalData originalHeaders headerResp
      chunkResps = (.error .headerMismatch, 0) := by
  simp [translateDataWithProgress, h]

/-- Witness for C2 on the spec's own example: headers A, B, C and the model
answer "x, y". -/
theorem C2_header_mismatch_witness :
    (splitTrim "x, y").length ≠ (["A", "B", "C"] : List String).length ∧
    translateDataWithProgress [[("A", Json.str "v")]] ["A", "B", "C"] "x, y"
      ["[]"] = (.error .headerMismatch, 0) :=
  ⟨by decide, C2_header_mismatch_aborts _ _ _ _ (by decide)⟩

/-- Claim C8 (counterexample): an input whose cleaned form parses directly to
a single JSON object is returned as that object, not as a one-element array
holding it. -/
theorem C8_single_object_counterexample :
    parseApiResponse "\x7b\"Q\": \"hi\"\x7d" = .ok (.obj [("Q", Json.str "hi")]) ∧
    parseApiResponse "\x7b\"Q\": \"hi\"\x7d" ≠
      .ok (.arr [.obj [("Q", Json.str "hi")]]) := by
  refine ⟨rfl, ?_⟩
  intro h
  rw [show parseApiResponse "\x7b\"Q\": \"hi\"\x7d" =
      Except.ok (Json.obj [("Q", Json.str "hi")]) from rfl] at h
  injection h with h2
  exact Json.noConfusion h2

/-- Claim C8 (amended): whenever the cleaned response parses directly,
parseApiResponse returns the parsed value as-is — in particular a single
object comes back as the bare object (the TypeScript cast does not wrap it
in an array). -/
theorem C8_direct_parse_returned_as_is (s : String) (v : Json)
    (h : jsonParseChars (cleanApiResponseChars s.data) = some v) :
    parseApiResponse s = .ok v := by
  unfold parseApiResponse parseCleanedResponse
  rw [h]

/-- Witness for C8 at a concrete single-object response. -/
theorem C8_direct_parse_witness :
    parseApiResponse "\x7b\"A\": 1\x7d" = .ok (.obj [("A", Json.num "1")]) :=
  C8_direct_parse_returned_as_is _ _ rfl

/-- parseWithStrategy6 always succeeds with a nonempty array: either the
extracted key-value rows, or the single-empty-object fallback. -/
theorem parseWithStrategy6_total (l : List Char) :
    ∃ rows, parseWithStrategy6 l = some (.arr rows) ∧ rows ≠ [] := by
  unfold parseWithStrategy6
  by_cases h : (strategy6Rows l).isEmpty
  · exact ⟨[.obj []], by simp [h], by simp⟩
  · refine ⟨strategy6Rows l, by simp [h], ?_⟩
    intro heq
    rw [heq] at h
    simp at h

/-- Claim C10 (counterexample): on the input "[]" parseApiResponse succeeds
with the empty array, so its result is not always an array with at least one
element. -/
theorem C10_empty_array_counterexample :
    parseApiResponse "[]" = .ok (.arr []) ∧
    isNonemptyArray (.arr []) = false := ⟨rfl, rfl⟩

/-- Claim C10 (amended): parseApiResponse never throws — strategy 6 always
returns a value, so the all-strategies-failed error branch is unreachable —
and strategy 6 itself always produces an array with at least one element;
but the overall result can be an empty array or a non-array value when an
earlier parse succeeds on such input. -/
theorem C10_parse_never_throws :
    (∀ s : String, ∃ v, parseApiResponse s = .ok v) ∧
    (∀ l : List Char, ∃ rows, parseWithStrategy6 l = some (.arr rows) ∧
      1 ≤ rows.length) := by
  constructor
  · intro s
    cases h0 : jsonParseChars (cleanApiResponseChars s.data) with
    | some v => exact ⟨v, by unfold parseApiResponse parseCleanedResponse; rw [h0]⟩
    | none =>
      cases h1 : parseWithStrategy1 (cleanApiResponseChars s.data) with
      | some v => exact ⟨v, by unfold parseApiResponse parseCleanedResponse; rw [h0, h1]⟩
      | none =>
        cases h2 : parseWithStrategy2 (cleanApiResponseChars s.data) with
        | some v => exact ⟨v, by unfold parseApiResponse parseCleanedResponse; rw [h0, h1, h2]⟩
        | none =>
          cases h3 : parseWithStrategy3 (cleanApiResponseChars s.data) with
          | some v => exact ⟨v, by unfold parseApiResponse parseCleanedResponse; rw [h0, h1, h2, h3]⟩
          | none =>
            cases h4 : parseWithStrategy4 (cleanApiResponseChars s.data) with
            | some v => exact ⟨v, by unfold parseApiResponse parseCleanedResponse; rw [h0, h1, h2, h3, h4]⟩
            | none =>
              cases h5 : parseWithStrategy5 (cleanApiResponseChars s.data) with
              | some v =>
                exact ⟨v, by unfold parseApiResponse parseCleanedResponse; rw [h0, h1, h2, h3, h4, h5]⟩
              | none =>
                obtain ⟨rows, h6, -⟩ :=
                  parseWithStrategy6_total (cleanApiResponseChars s.data)
                exact ⟨.arr rows,
                  by unfold parseApiResponse parseCleanedResponse; rw [h0, h1, h2, h3, h4, h5, h6]⟩
  · intro l
    obtain ⟨rows, h6, hne⟩ := parseWithStrategy6_total l
    exact ⟨rows, h6, List.length_pos.mpr hne⟩

/-- reconAux produces exactly one output row per input row. -/
theorem reconAux_length (origH transH : List String) (ts : List Json) :
    ∀ (rows : List Row) (counter : Nat),
      (reconAux origH transH ts rows counter).length = rows.length := by
  intro rows
  induction rows with
  | nil => intro counter; rfl
  | cons r rest ih =>
    intro counter
    simp only [reconAux]
    split <;> split <;> simp [ih]

/-- Claim C3 (counterexample): with one to-translate row and a chunk response
parsing to the empty array, the run still succeeds with one output row — the
row whose translated source is missing is present as an empty row, not
omitted from the returned list. -/
theorem C3_short_translation_counterexample :
    translateDataWithProgress [[("A", Json.str "v")]] ["A"] "X" ["[]"] =
      (.ok [([] : Row)], 1) ∧
    ([([] : Row)] : List Row).length ≠ 0 := by
  constructor
  · rfl
  · decide

/-- Claim C3 (amended): when the accumulated translated-row list is already
exhausted (its length is at most the counter), a to-translate row produces
an empty output row in place — the returned list keeps one row per input row
(shown by the second conjunct for every input), and no crash occurs. -/
theorem C3_missing_source_empty_row (origH transH : List String)
    (ts : List Json) (r : Row) (rest : List Row) (counter : Nat)
    (hr : isVerbalReasoning r = false) (hts : ts.length ≤ counter) :
    reconAux origH transH ts (r :: rest) counter =
      ([] : Row) :: reconAux origH transH ts rest counter ∧
    ∀ (rows : List Row) (c : Nat),
      (reconAux origH transH ts rows c).length = rows.length := by
  refine ⟨?_, reconAux_length origH transH ts⟩
  simp only [reconAux, hr]
  rw [List.getD_eq_default _ _ hts]
  simp [jsTruthy]

/-- Witness for C3 at a concrete exhausted translation list. -/
theorem C3_missing_source_witness :
    isVerbalReasoning [("A", Json.str "v")] = false ∧
    ([] : List Json).length ≤ 0 ∧
    reconAux ["A"] ["X"] [] [[("A", Json.str "v")]] 0 = [([] : Row)] := by
  refine ⟨by decide, by decide, ?_⟩
  have h := (C3_missing_source_empty_row ["A"] ["X"] [] [("A", Json.str "v")]
    [] 0 (by decide) (by decide)).1
  simpa using h

/-- Claim C1 (counterexample): a successful run in which the model returns
two identical translated headers for two distinct original headers produces
an output row with a single column, not one column per original header. -/
theorem C1_duplicate_headers_counterexample :
    translateDataWithProgress
      [[("A", Json.str "v"), ("B", Json.str "w"),
        ("Subskill", Json.str "Verbal Reasoning")]]
      ["A", "B"] "X, X" [] =
      (.ok [[("X", Json.str "w")]], 0) ∧
    ([("X", Json.str "w")] : Row).length ≠ (["A", "B"] : List String).length := by
  constructor
  · rfl
  · decide

/-- A dropWhile result never starts with a character satisfying the
predicate. -/
theorem head_of_dropWhile {α} {p : α → Bool} :
    ∀ {l : List α} {c : α} {t : List α},
      List.dropWhile p l = c :: t → p c = false := by
  intro l
  induction l with
  | nil => intro c t h; simp [List.dropWhile] at h
  | cons a rest ih =>
    intro c t h
    rw [List.dropWhile_cons] at h
    by_cases ha : p a
    · rw [if_pos ha] at h
      exact ih h
    · rw [if_neg ha] at h
      cases h
      simpa using ha

/-- dropWhile is the identity on a list whose head (if any) fails the
predicate. -/
theorem dropWhile_eq_self_of_head {α} {p : α → Bool} {l : List α}
    (h : ∀ c t, l = c :: t → p c = false) : l.dropWhile p = l := by
  cases l with
  | nil => rfl
  | cons a rest => simp [List.dropWhile_cons, h a rest rfl]

/-- Right-trimming preserves the left-trimmed property: dropping trailing
characters from `l.dropWhile p` leaves a list whose head still fails `p`. -/
theorem dropWhile_rdropWhile_self {α} (p : α → Bool) (l : List α) :
    ((l.dropWhile p).rdropWhile p).dropWhile p =
      (l.dropWhile p).rdropWhile p := by
  apply dropWhile_eq_self_of_head
  intro c t hct
  obtain ⟨r, hr⟩ := List.rdropWhile_prefix p (l.dropWhile p)
  rw [hct] at hr
  have hhead : List.dropWhile p l = c :: (t ++ r) := by
    rw [← hr]
    exact List.cons_append c t r
  exact head_of_dropWhile hhead

/-- trimChars is idempotent. -/
theorem trimChars_idem (l : List Char) : trimChars (trimChars l) = trimChars l := by
  show List.rdropWhile isJsonWs
      (List.dropWhile isJsonWs
        (List.rdropWhile isJsonWs (List.dropWhile isJsonWs l))) =
    List.rdropWhile isJsonWs (List.dropWhile isJsonWs l)
  rw [dropWhile_rdropWhile_self, List.rdropWhile_idempotent]

/-- jsonParseChars ignores surrounding whitespace: parsing the trimmed text
gives the same result. -/
theorem jsonParseChars_trimChars (l : List Char) :
    jsonParseChars (trimChars l) = jsonParseChars l := by
  unfold jsonParseChars
  rw [trimChars_idem]

/-- removeX000dScan is the identity when the artifact does not occur. -/
theorem removeX000dScan_id :
    ∀ (f : Nat) (l : List Char), hasX000d l = false → removeX000dScan f l = l := by
  intro f
  induction f with
  | zero => intro l _; rfl
  | succ f ih =>
    intro l h
    cases l with
    | nil => rfl
    | cons c rest =>
      simp only [hasX000d, Bool.or_eq_false_iff] at h
      simp [removeX000dScan, h.1, ih rest h.2]

/-- removeX000d is the identity when the artifact does not occur. -/
theorem removeX000d_id (l : List Char) (h : hasX000d l = false) :
    removeX000d l = l :=
  removeX000dScan_id l.length l h

/-- devQuoteScan is the identity when the bare-numeral regex matches
nowhere. -/
theorem devQuoteScan_id :
    ∀ (f : Nat) (l : List Char), hasDevMatch l = false → devQuoteScan f l = l := by
  intro f
  induction f with
  | zero => intro l _; rfl
  | succ f ih =>
    intro l h
    cases l with
    | nil => rfl
    | cons c rest =>
      simp only [hasDevMatch, Bool.or_eq_false_iff] at h
      cases hm : tryDevMatch (c :: rest) with
      | some p => rw [hm] at h; simp at h
      | none => simp [devQuoteScan, hm, ih rest h.2]

/-- devQuote is the identity when the bare-numeral regex matches nowhere. -/
theorem devQuote_id (l : List Char) (h : hasDevMatch l = false) :
    devQuote l = l :=
  devQuoteScan_id l.length l h

/-- escCharJs is the identity when the target character does not occur. -/
theorem escCharJs_id (target rep : Char) :
    ∀ (l : List Char), hasChar target l = false →
      escCharJs target rep l = l := by
  intro l
  induction l with
  | nil => intro _; rfl
  | cons c rest ih =>
    intro h
    simp only [hasChar, Bool.or_eq_false_iff, decide_eq_false_iff_not] at h
    simp [escCharJs, h.1, ih h.2]

/-- Claim C5 (counterexample): the well-formed JSON array text
`[{"a":"_x000d_"}]` denotes a row array, but strategy 1 deletes the artifact
text inside the string value and recovers a different array. -/
theorem C5_strategy1_counterexample :
    jsonParse "[\x7b\"a\":\"_x000d_\"\x7d]" =
      some (.arr [.obj [("a", Json.str "_x000d_")]]) ∧
    isRowArray (.arr [.obj [("a", Json.str "_x000d_")]]) = true ∧
    parseWithStrategy1 "[\x7b\"a\":\"_x000d_\"\x7d]".data ≠
      some (.arr [.obj [("a", Json.str "_x000d_")]]) := by
  refine ⟨rfl, rfl, ?_⟩
  intro h
  rw [show parseWithStrategy1 "[\x7b\"a\":\"_x000d_\"\x7d]".data =
      some (Json.arr [Json.obj [("a", Json.str "")]]) from rfl] at h
  injection h with h2
  simp at h2

/-- Claim C5 (amended): strategy 1 recovers a well-formed JSON row array
unchanged provided the text contains none of the material its transforms
touch: no `_x000d_` artifact, no match of the bare-numeral quoting regex,
and no literal newline, carriage-return or tab character (the control
character escaping corrupts inter-token whitespace, and the other two
replacements rewrite string contents). -/
theorem C5_strategy1_roundtrip (s : String) (v : Json)
    (hx : hasX000d s.data = false) (hd : hasDevMatch s.data = false)
    (hn : hasChar '\n' s.data = false) (hr : hasChar '\r' s.data = false)
    (ht : hasChar '\t' s.data = false)
    (hparse : jsonParse s = some v) (_hrow : isRowArray v = true) :
    parseWithStrategy1 s.data = some v := by
  unfold parseWithStrategy1
  rw [removeX000d_id s.data hx, devQuote_id s.data hd,
    escCharJs_id '\n' 'n' s.data hn, escCharJs_id '\r' 'r' s.data hr,
    escCharJs_id '\t' 't' s.data ht, jsonParseChars_trimChars]
  exact hparse

/-- Witness for C5 at a concrete clean row array. -/
theorem C5_strategy1_witness :
    parseWithStrategy1 "[\x7b\"a\": \"b\"\x7d]".data =
      some (.arr [.obj [("a", Json.str "b")]]) :=
  C5_strategy1_roundtrip "[\x7b\"a\": \"b\"\x7d]" _ (by decide) (by decide)
    (by decide) (by decide) (by decide) rfl rfl

/-- Every entry of an objInsert result is the inserted pair or an entry of
the original row. -/
theorem mem_objInsert {acc : Row} {k : String} {v : Json} {p : String × Json} :
    p ∈ objInsert acc k v → p = (k, v) ∨ p ∈ acc := by
  induction acc with
  | nil => intro h; simp [objInsert] at h; exact Or.inl h
  | cons kv rest ih =>
    intro h
    obtain ⟨k', v'⟩ := kv
    simp only [objInsert] at h
    by_cases he : k' = k
    · rw [if_pos he] at h
      rcases List.mem_cons.mp h with hp | hp
      · subst he; exact Or.inl hp
      · exact Or.inr (List.mem_cons_of_mem _ hp)
    · rw [if_neg he] at h
      rcases List.mem_cons.mp h with hp | hp
      · exact Or.inr (by rw [hp]; exact List.mem_cons_self _ _)
      · rcases ih hp with h1 | h2
        · exact Or.inl h1
        · exact Or.inr (List.mem_cons_of_mem _ h2)

/-- Every entry of buildRowAux comes from the accumulator or pairs the
translated header at position `i + j` with the source value of the `j`-th
remaining original header. -/
theorem mem_buildRowAux (transH : List String) (src : Json) :
    ∀ (hs : List String) (i : Nat) (acc : Row) (p : String × Json),
      p ∈ buildRowAux transH src hs i acc →
      p ∈ acc ∨ ∃ j, j < hs.length ∧
        p = (transH.getD (i + j) "undefined", jsGet src (hs.getD j "")) := by
  intro hs
  induction hs with
  | nil => intro i acc p h; exact Or.inl h
  | cons hh hrest ih =>
    intro i acc p h
    rcases ih (i + 1) _ p h with hin | ⟨j, hj, hp⟩
    · rcases mem_objInsert hin with hpk | hacc
      · right
        exact ⟨0, by simp, by simpa using hpk⟩
      · exact Or.inl hacc
    · right
      refine ⟨j + 1, by simpa using hj, ?_⟩
      rw [hp]
      have : i + 1 + j = i + (j + 1) := by omega
      simp [this]

/-- Every entry of a built row pairs the translated header at some index `j`
with the source row's value at the original header of the same index. -/
theorem mem_buildRow {origH transH : List String} {src : Json}
    {p : String × Json} (h : p ∈ buildRow origH transH src) :
    ∃ j, j < origH.length ∧
      p = (transH.getD j "undefined", jsGet src (origH.getD j "")) := by
  rcases mem_buildRowAux transH src origH 0 [] p h with hin | ⟨j, hj, hp⟩
  · simp at hin
  · exact ⟨j, hj, by simpa using hp⟩

/-- The output row at a passthrough position is built from that input row
itself, whatever the translated values and the counter are. -/
theorem reconAux_getD_passthrough (origH transH : List String)
    (ts : List Json) :
    ∀ (rows : List Row) (counter k : Nat), k < rows.length →
      isVerbalReasoning (rows.getD k []) = true →
      (reconAux origH transH ts rows counter).getD k [] =
        buildRow origH transH (.obj (rows.getD k [])) := by
  intro rows
  induction rows with
  | nil => intro counter k hk; simp at hk
  | cons r rest ih =>
    intro counter k hk hvr
    cases k with
    | zero =>
      simp only [List.getD_cons_zero] at hvr ⊢
      simp [reconAux, hvr, jsTruthy]
    | succ k' =>
      simp only [List.getD_cons_succ] at hvr ⊢
      simp only [reconAux]
      split <;> split <;>
        (rw [List.getD_cons_succ]; exact ih _ k' (by simpa using hk) hvr)

/-- When every chunk response parses to a one-object array, a successful
chunk loop returns exactly one object per to-translate row. -/
theorem chunkLoop_ok :
    ∀ (rows : List Row) (resps : List String),
      (∀ t ∈ resps, ∃ ms, parseApiResponse t = .ok (.arr [.obj ms])) →
      ∀ (ts : List Json) (n : Nat), chunkLoop rows resps = (.ok ts, n) →
        ts.length = rows.length ∧ ∀ v ∈ ts, ∃ ms, v = Json.obj ms := by
  intro rows
  induction rows with
  | nil =>
    intro resps _ ts n h
    rw [show chunkLoop [] resps = ((.ok [] : Except OrchErr (List Json)), 0)
      from rfl] at h
    injection h with h1 h2
    injection h1 with h1
    rw [← h1]
    exact ⟨rfl, by simp⟩
  | cons r rest ih =>
    intro resps hresp ts n h
    cases resps with
    | nil =>
      rw [show chunkLoop (r :: rest) [] =
        ((.error .apiFailure : Except OrchErr (List Json)), 1) from rfl] at h
      injection h with h1 _
      exact Except.noConfusion h1
    | cons t ts' =>
      obtain ⟨ms, hms⟩ := hresp t (List.mem_cons_self _ _)
      rw [show chunkLoop (r :: rest) (t :: ts') =
        chunkStep (parseApiResponse t) (chunkLoop rest ts') from rfl,
        hms] at h
      rcases hcl : chunkLoop rest ts' with ⟨res, m⟩
      rw [hcl] at h
      cases res with
      | error e =>
        rw [show chunkStep (.ok (.arr [.obj ms]))
          ((.error e : Except OrchErr (List Json)), m) = (.error e, m + 1)
          from rfl] at h
        injection h with h1 _
        exact Except.noConfusion h1
      | ok acc =>
        rw [show chunkStep (.ok (.arr [.obj ms]))
          ((.ok acc : Except OrchErr (List Json)), m) =
            (.ok (.obj ms :: acc), m + 1) from rfl] at h
        injection h with h1 _
        injection h1 with h1
        rw [← h1]
        obtain ⟨hlen, hobj⟩ :=
          ih ts' (fun u hu => hresp u (List.mem_cons_of_mem _ hu)) acc m hcl
        constructor
        · simp [hlen]
        · intro v hv
          rcases List.mem_cons.mp hv with hv0 | hvr
          · exact ⟨ms, hv0⟩
          · exact hobj v hvr

/-- The output row at every position: a passthrough row is rebuilt from
itself, a to-translate row from the translated value the counter has
reached, when the translated values are all objects and cover the remaining
to-translate rows. -/
theorem reconAux_getD (origH transH : List String) (ts : List Json)
    (hobj : ∀ v ∈ ts, ∃ ms, v = Json.obj ms) :
    ∀ (rows : List Row) (counter : Nat),
      counter + (rows.filter (fun r => !isVerbalReasoning r)).length ≤
        ts.length →
      ∀ k, k < rows.length →
        (reconAux origH transH ts rows counter).getD k [] =
          buildRow origH transH
            (if isVerbalReasoning (rows.getD k []) then
              .obj (rows.getD k [])
             else ts.getD
               (counter +
                 ((rows.take k).filter (fun r => !isVerbalReasoning r)).length)
               .undef) := by
  intro rows
  induction rows with
  | nil => intro counter _ k hk; simp at hk
  | cons r rest ih =>
    intro counter hcov k hk
    by_cases hvr : isVerbalReasoning r
    · have hcov' :
          counter + (rest.filter (fun x => !isVerbalReasoning x)).length ≤
            ts.length := by
        simpa [List.filter_cons, hvr] using hcov
      cases k with
      | zero => simp [reconAux, hvr, jsTruthy]
      | succ k' =>
        have hrec := ih counter hcov' k' (by simpa using hk)
        simp only [reconAux, hvr, if_true, List.take_succ_cons,
          List.filter_cons, List.getD_cons_succ]
        simp only [hvr, Bool.not_true, Bool.false_eq_true, if_false, jsTruthy]
        exact hrec
    · have hvrf : isVerbalReasoning r = false := by
        simpa using hvr
      have hflen :
          (List.filter (fun x => !isVerbalReasoning x) (r :: rest)).length =
            (rest.filter (fun x => !isVerbalReasoning x)).length + 1 := by
        simp [List.filter_cons, hvrf]
      have hlt : counter < ts.length := by omega
      have hmem : ts.getD counter Json.undef ∈ ts := by
        rw [List.getD_eq_getElem _ _ hlt]
        exact List.getElem_mem hlt
      obtain ⟨ms, hms⟩ := hobj _ hmem
      have htr : jsTruthy (ts.getD counter Json.undef) = true := by
        rw [hms]; rfl
      have hcov' :
          (counter + 1) +
            (rest.filter (fun x => !isVerbalReasoning x)).length ≤
            ts.length := by omega
      cases k with
      | zero =>
        simp only [reconAux, hvrf, Bool.false_eq_true, if_false,
          List.getD_cons_zero, List.take_zero, List.filter_nil,
          List.length_nil, Nat.add_zero]
        rw [if_pos htr]
        rfl
      | succ k' =>
        have hrec := ih (counter + 1) hcov' k' (by simpa using hk)
        simp only [reconAux, hvrf, Bool.false_eq_true, if_false, htr,
          if_true, List.getD_cons_succ, List.take_succ_cons, List.filter_cons]
        simp only [hvrf, Bool.not_false, if_true, List.length_cons]
        rw [show counter +
            ((List.filter (fun r => !isVerbalReasoning r)
              (List.take k' rest)).length + 1) =
            counter + 1 +
            (List.filter (fun r => !isVerbalReasoning r)
              (List.take k' rest)).length from by omega]
        exact hrec

/-- Inserting a fresh key appends it to the row's key list. -/
theorem rowKeys_objInsert {acc : Row} {k : String} {v : Json}
    (h : k ∉ rowKeys acc) :
    rowKeys (objInsert acc k v) = rowKeys acc ++ [k] := by
  induction acc with
  | nil => rfl
  | cons kv rest ih =>
    obtain ⟨k', v'⟩ := kv
    simp only [rowKeys, List.map_cons, List.mem_cons] at h
    push_neg at h
    simp only [objInsert, if_neg (Ne.symm h.1)]
    simp only [rowKeys, List.map_cons, List.cons_append, List.cons.injEq,
      true_and]
    exact ih h.2

/-- buildRowAux with distinct translated headers: starting from an
accumulator holding the first `i` translated headers as keys, processing the
remaining original headers fills the key list up to the whole translated
header list. -/
theorem buildRowAux_rowKeys (transH : List String) (src : Json)
    (hnd : transH.Nodup) :
    ∀ (hs : List String) (i : Nat) (acc : Row),
      i + hs.length = transH.length →
      rowKeys acc = transH.take i →
      rowKeys (buildRowAux transH src hs i acc) = transH := by
  intro hs
  induction hs with
  | nil =>
    intro i acc hlen hkeys
    have hi : i = transH.length := by simpa using hlen
    rw [buildRowAux, hkeys, hi, List.take_length]
  | cons hh hrest ih =>
    intro i acc hlen hkeys
    have hi : i < transH.length := by
      simp only [List.length_cons] at hlen
      omega
    have hkey : transH.getD i "undefined" = transH[i] :=
      List.getD_eq_getElem _ _ hi
    have hnot : transH[i] ∉ transH.take i := by
      intro hmemt
      have hsplit := List.take_append_drop i transH
      rw [← hsplit] at hnd
      obtain ⟨-, -, hdisj⟩ := List.nodup_append.mp hnd
      exact hdisj hmemt (by
        rw [List.drop_eq_getElem_cons hi]
        exact List.mem_cons_self _ _)
    rw [buildRowAux]
    apply ih (i + 1) _ (by simp only [List.length_cons] at hlen; omega)
    rw [hkey, rowKeys_objInsert (by rw [hkeys]; exact hnot), hkeys]
    rw [List.take_succ, List.getElem?_eq_getElem hi]
    rfl

/-- With pairwise-distinct translated headers of the same length as the
original headers, a built row has exactly one column per original header. -/
theorem buildRow_length (origH transH : List String) (src : Json)
    (hnd : transH.Nodup) (hlen : transH.length = origH.length) :
    (buildRow origH transH src).length = origH.length := by
  have hk : rowKeys (buildRow origH transH src) = transH :=
    buildRowAux_rowKeys transH src hnd origH 0 [] (by omega) (by simp [rowKeys])
  have hmap : (buildRow origH transH src).length =
      (rowKeys (buildRow origH transH src)).length :=
    (List.length_map _ _).symm
  rw [hmap, hk, hlen]

/-- A successful run of the orchestrator passed the header-count guard, had
a successful chunk loop, and returned the reconstruction of the input rows
from the translated values. -/
theorem translate_ok_inversion (data : List Row) (origH : List String)
    (hResp : String) (cResps : List String) (out : List Row) (n : Nat)
    (h : translateDataWithProgress data origH hResp cResps = (.ok out, n)) :
    (splitTrim hResp).length = origH.length ∧
    chunkLoop (data.filter (fun r => !isVerbalReasoning r)) cResps =
      (.ok (translatedOf data cResps), n) ∧
    out = reconAux origH (splitTrim hResp) (translatedOf data cResps)
      data 0 := by
  by_cases hg : (splitTrim hResp).length ≠ origH.length
  · rw [show translateDataWithProgress data origH hResp cResps =
      (.error .headerMismatch, 0) from by
        simp [translateDataWithProgress, hg]] at h
    injection h with h1 _
    exact Except.noConfusion h1
  · have hge : (splitTrim hResp).length = origH.length := not_ne_iff.mp hg
    refine ⟨hge, ?_⟩
    rcases hcl : chunkLoop (data.filter (fun r => !isVerbalReasoning r))
      cResps with ⟨res, m⟩
    have hrun : translateDataWithProgress data origH hResp cResps =
        (match (res, m) with
         | (.error e, n) => (.error e, n)
         | (.ok translated, n) =>
           (.ok (reconAux origH (splitTrim hResp) translated data 0), n)) := by
      rw [translateDataWithProgress, if_neg hg, hcl]
    cases res with
    | error e =>
      rw [hrun] at h
      injection h with h1 _
      exact Except.noConfusion h1
    | ok ts =>
      rw [hrun] at h
      injection h with h1 h2
      injection h1 with h1
      have hts : translatedOf data cResps = ts := by
        rw [translatedOf, hcl]
      subst h2
      rw [hts]
      exact ⟨rfl, h1.symm⟩

/-- Claim C1 (amended): a successful run always returns exactly one output
row per input row; when additionally every chunk response parses to a
one-object array, the k-th output row is built from the k-th input row (for
a passthrough row) or from the translated value whose index counts the
to-translate rows before position k (original order); and when the
translated headers are moreover pairwise distinct, every output row has
exactly one column per original header.  Without those provisos the column
count can drop (duplicate translated headers, missing translated rows). -/
theorem C1_row_and_column_shape (data : List Row) (origH : List String)
    (hResp : String) (cResps : List String) (out : List Row) (n : Nat)
    (hrun : translateDataWithProgress data origH hResp cResps = (.ok out, n)) :
    out.length = data.length ∧
    ((∀ t ∈ cResps, ∃ ms, parseApiResponse t = .ok (.arr [.obj ms])) →
      ∀ k, k < data.length →
        out.getD k [] = buildRow origH (splitTrim hResp)
          (if isVerbalReasoning (data.getD k []) then .obj (data.getD k [])
           else (translatedOf data cResps).getD
             (countToTranslateBefore data k) .undef)) ∧
    ((splitTrim hResp).Nodup →
      (∀ t ∈ cResps, ∃ ms, parseApiResponse t = .ok (.arr [.obj ms])) →
      ∀ k, k < data.length → (out.getD k []).length = origH.length) := by
  obtain ⟨hg, hcl, hout⟩ :=
    translate_ok_inversion data origH hResp cResps out n hrun
  have hpos : (∀ t ∈ cResps, ∃ ms, parseApiResponse t = .ok (.arr [.obj ms])) →
      ∀ k, k < data.length →
        out.getD k [] = buildRow origH (splitTrim hResp)
          (if isVerbalReasoning (data.getD k []) then .obj (data.getD k [])
           else (translatedOf data cResps).getD
             (countToTranslateBefore data k) .undef) := by
    intro hresp k hk
    obtain ⟨hlen_ts, hobj⟩ := chunkLoop_ok _ cResps hresp _ _ hcl
    rw [hout]
    have hq := reconAux_getD origH (splitTrim hResp)
      (translatedOf data cResps) hobj data 0 (by rw [hlen_ts]; omega) k hk
    simpa [countToTranslateBefore] using hq
  refine ⟨?_, hpos, ?_⟩
  · rw [hout, reconAux_length]
  · intro hnd hresp k hk
    rw [hpos hresp k hk]
    exact buildRow_length origH (splitTrim hResp) _ hnd hg

/-- Witness for C1 on a concrete one-row successful run. -/
theorem C1_row_and_column_shape_witness :
    ([[("X", Json.str "bonjour")]] : List Row).length =
      ([[("A", Json.str "hello")]] : List Row).length ∧
    (([[("X", Json.str "bonjour")]] : List Row).getD 0 []).length =
      (["A"] : List String).length := by
  have h := C1_row_and_column_shape [[("A", Json.str "hello")]] ["A"] "X"
    ["[\x7b\"A\":\"bonjour\"\x7d]"] [[("X", Json.str "bonjour")]] 1 rfl
  refine ⟨h.1, ?_⟩
  exact h.2.2 (by decide)
    (fun t ht => by
      rw [List.mem_singleton] at ht
      subst ht
      exact ⟨[("A", Json.str "bonjour")], rfl⟩)
    0 (by decide)

/-- Claim C9: in every successful run, each entry of the output row at a
passthrough position pairs the translated header of some index j with a
value byte-identical to the input row's value at the original column of the
same index j (read exactly as the source reads it). -/
theorem C9_passthrough_values (data : List Row) (origH : List String)
    (hResp : String) (cResps : List String) (out : List Row) (n k : Nat)
    (hrun : translateDataWithProgress data origH hResp cResps = (.ok out, n))
    (hk : k < data.length)
    (hvr : isVerbalReasoning (data.getD k []) = true) :
    ∀ p ∈ out.getD k [], ∃ j, j < origH.length ∧
      p.1 = (splitTrim hResp).getD j "undefined" ∧
      p.2 = jsGet (.obj (data.getD k [])) (origH.getD j "") := by
  obtain ⟨-, -, hout⟩ :=
    translate_ok_inversion data origH hResp cResps out n hrun
  intro p hp
  rw [hout, reconAux_getD_passthrough origH (splitTrim hResp)
    (translatedOf data cResps) data 0 k hk hvr] at hp
  obtain ⟨j, hj, hpe⟩ := mem_buildRow hp
  exact ⟨j, hj, by rw [hpe], by rw [hpe]⟩

/-- Witness for C9 on a concrete passthrough run, instantiated at the first
entry of the output row. -/
theorem C9_passthrough_witness :
    ∃ j, j < (["A", "Subskill"] : List String).length ∧
      (("X", Json.str "v") : String × Json).1 =
        (splitTrim "X, Y").getD j "undefined" ∧
      (("X", Json.str "v") : String × Json).2 =
        jsGet (.obj (([[("Subskill", Json.str "Verbal Reasoning"),
          ("A", Json.str "v")]] : List Row).getD 0 []))
          ((["A", "Subskill"] : List String).getD j "") :=
  C9_passthrough_values
    [[("Subskill", Json.str "Verbal Reasoning"), ("A", Json.str "v")]]
    ["A", "Subskill"] "X, Y" []
    [[("X", Json.str "v"), ("Y", Json.str "Verbal Reasoning")]] 0 0
    rfl (by decide) (by decide) ("X", Json.str "v")
    (List.mem_cons_self _ _)
